import Mathlib

/-!
Verification of the addon reconciliation and synchronization engine of
stremio-account-manager: the merge/removal engines, the bulk multi-account
orchestration loops, the per-account provenance synchronizer, the
update/health poller and the reinstall workflow, shallowly embedded as pure
Lean functions.  Remote round-trips (fetch collection, write collection,
fetch manifest, health probe) are passed in as explicit oracles or threaded
through an explicit `Remote` state; timestamps are explicit `Nat` arguments.
-/

namespace Stremio

/-- Addon manifest (`src/types/addon`): the fields the engine inspects.
Fields never inspected by any of the operations below (description, logo,
catalogs, ...) are omitted; every operation copies manifests wholesale. -/
structure AddonManifest where
  id : String
  name : String
  version : String
  deriving DecidableEq, Repr

/-- Optional flags on an installed addon descriptor.  The source reads them
only through truthiness (`addon.flags?.protected`), so an absent field and
`false` are collapsed to `false`. -/
structure AddonFlags where
  official : Bool
  «protected» : Bool
  deriving DecidableEq, Repr

/-- An addon as installed in a remote account collection
(`src/types/addon`). -/
structure AddonDescriptor where
  transportUrl : String
  manifest : AddonManifest
  flags : Option AddonFlags
  deriving DecidableEq, Repr

/-- Truthiness of `addon.flags?.protected` in the source. -/
def AddonDescriptor.isProtected (a : AddonDescriptor) : Bool :=
  match a.flags with
  | some f => f.«protected»
  | none => false

/-- Truthiness of `addon.flags?.official` in the source. -/
def AddonDescriptor.isOfficial (a : AddonDescriptor) : Bool :=
  match a.flags with
  | some f => f.official
  | none => false

/-- A library template (`src/types/saved-addon`), restricted to the fields
the reconciliation engine reads or writes. -/
structure SavedAddon where
  id : String
  name : String
  installUrl : String
  manifest : AddonManifest
  tags : List String
  lastUsed : Option Nat
  deriving DecidableEq, Repr

inductive MergeStrategy where
  | replaceMatching
  | addOnly
  deriving DecidableEq, Repr

/-- One `{addonId, name}` record of a `MergeResult`. -/
structure MergeEntry where
  addonId : String
  name : String
  deriving DecidableEq, Repr

/-- Per-merge outcome log (`src/types/saved-addon`). -/
structure MergeResult where
  added : List MergeEntry
  updated : List MergeEntry
  skipped : List MergeEntry
  «protected» : List MergeEntry
  deriving DecidableEq, Repr

/-- Aggregate report of a bulk operation (`src/types/saved-addon`). -/
structure BulkResult where
  success : Nat
  failed : Nat
  errors : List (String × String)
  details : List (String × MergeResult)
  deriving DecidableEq, Repr

inductive InstalledVia where
  | savedAddon
  | manual
  deriving DecidableEq, Repr

/-- Per-account provenance entry (`src/types/saved-addon`). -/
structure InstalledAddon where
  savedAddonId : Option String
  addonId : String
  installUrl : String
  installedAt : Nat
  installedVia : InstalledVia
  appliedTags : Option (List String)
  deriving DecidableEq, Repr

/-- Per-account provenance ledger (`src/types/saved-addon`). -/
structure AccountAddonState where
  accountId : String
  installedAddons : List InstalledAddon
  lastSync : Nat
  deriving DecidableEq, Repr

/-! ## Merge engine -/

/-- The descriptor a merge builds from a template: `transportUrl` is the
template's `installUrl`, the manifest is the template's manifest, and no
flags are carried over. -/
def buildDescriptor (t : SavedAddon) : AddonDescriptor :=
  { transportUrl := t.installUrl, manifest := t.manifest, flags := none }

/-- The four per-template outcomes of the merge engine. -/
inductive MergeOutcome where
  | added
  | updated
  | skipped
  | protectedOutcome
  deriving DecidableEq, Repr

/-- Modelled from the spec: the per-template step of `mergeAddons` from
`src/lib/addon-merger`, whose source is not present under `src/` (only its
callers in `src/store` are).  Per spec section 4.1: look the template up by
`manifest.id` in the current collection; if the found addon is protected,
refuse and leave it untouched under any strategy; if found and the strategy
is `replace-matching`, replace it in place (same index) by the descriptor
built from the template; if found and the strategy is `add-only`, leave it
untouched; if not found, append the built descriptor at the end. -/
def mergeOne (strategy : MergeStrategy) (t : SavedAddon) :
    List AddonDescriptor → List AddonDescriptor × MergeOutcome
  | [] => ([buildDescriptor t], .added)
  | a :: rest =>
    if a.manifest.id = t.manifest.id then
      if a.isProtected then
        (a :: rest, .protectedOutcome)
      else
        match strategy with
        | .replaceMatching => (buildDescriptor t :: rest, .updated)
        | .addOnly => (a :: rest, .skipped)
    else
      let p := mergeOne strategy t rest
      (a :: p.1, p.2)

/-- Append the `{addonId, name}` record for one template outcome to the
corresponding list of the `MergeResult`. -/
def recordOutcome (res : MergeResult) (t : SavedAddon) : MergeOutcome → MergeResult
  | .added => { res with added := res.added ++ [⟨t.manifest.id, t.manifest.name⟩] }
  | .updated => { res with updated := res.updated ++ [⟨t.manifest.id, t.manifest.name⟩] }
  | .skipped => { res with skipped := res.skipped ++ [⟨t.manifest.id, t.manifest.name⟩] }
  | .protectedOutcome =>
      { res with «protected» := res.«protected» ++ [⟨t.manifest.id, t.manifest.name⟩] }

/-- One iteration of the merge engine: transform the collection with
`mergeOne` and log the outcome. -/
def mergeStep (strategy : MergeStrategy) (st : List AddonDescriptor × MergeResult)
    (t : SavedAddon) : List AddonDescriptor × MergeResult :=
  let p := mergeOne strategy t st.1
  (p.1, recordOutcome st.2 t p.2)

def emptyMergeResult : MergeResult := ⟨[], [], [], []⟩

/-- Modelled from the spec: `mergeAddons` from `src/lib/addon-merger`, whose
source is not present under `src/`.  Iterates the templates in stable order,
applying `mergeOne` and logging each outcome (spec section 4.1). -/
def mergeAddons (current : List AddonDescriptor) (templates : List SavedAddon)
    (strategy : MergeStrategy) : List AddonDescriptor × MergeResult :=
  templates.foldl (mergeStep strategy) (current, emptyMergeResult)

/-! ### Merge engine lemmas -/

theorem mergeOne_not_found (s : MergeStrategy) (t : SavedAddon)
    (col : List AddonDescriptor) (h : ∀ x ∈ col, x.manifest.id ≠ t.manifest.id) :
    mergeOne s t col = (col ++ [buildDescriptor t], .added) := by
  induction col with
  | nil => rfl
  | cons a rest ih =>
    have ha : a.manifest.id ≠ t.manifest.id := h a (List.mem_cons_self a rest)
    simp only [mergeOne, if_neg ha]
    rw [ih (fun x hx => h x (List.mem_cons_of_mem a hx))]
    simp

theorem mergeOne_mem (s : MergeStrategy) (t : SavedAddon)
    (col : List AddonDescriptor) (x : AddonDescriptor)
    (hx : x ∈ (mergeOne s t col).1) : x ∈ col ∨ x = buildDescriptor t := by
  induction col with
  | nil =>
    simp only [mergeOne, List.mem_singleton] at hx
    exact Or.inr hx
  | cons a rest ih =>
    by_cases hid : a.manifest.id = t.manifest.id
    · simp only [mergeOne, if_pos hid] at hx
      by_cases hp : a.isProtected
      · simp only [if_pos hp] at hx
        exact Or.inl hx
      · simp only [if_neg hp] at hx
        cases s with
        | replaceMatching =>
          rcases List.mem_cons.mp hx with h | h
          · exact Or.inr h
          · exact Or.inl (List.mem_cons_of_mem a h)
        | addOnly => exact Or.inl hx
    · simp only [mergeOne, if_neg hid] at hx
      rcases List.mem_cons.mp hx with h | h
      · exact Or.inl (h ▸ List.mem_cons_self a rest)
      · rcases ih h with h' | h'
        · exact Or.inl (List.mem_cons_of_mem a h')
        · exact Or.inr h'

theorem mergeOne_keep_pos (s : MergeStrategy) (t : SavedAddon)
    (col : List AddonDescriptor) (j : Nat) (x : AddonDescriptor)
    (hj : col[j]? = some x) (hx : x.manifest.id ≠ t.manifest.id) :
    (mergeOne s t col).1[j]? = some x := by
  induction col generalizing j with
  | nil => simp at hj
  | cons a rest ih =>
    by_cases hid : a.manifest.id = t.manifest.id
    · have hne : j ≠ 0 := by
        intro h0
        subst h0
        simp only [List.getElem?_cons_zero] at hj
        cases hj
        exact hx hid
      obtain ⟨k, rfl⟩ := Nat.exists_eq_succ_of_ne_zero hne
      simp only [List.getElem?_cons_succ] at hj
      simp only [mergeOne, if_pos hid]
      by_cases hp : a.isProtected
      · simp [if_pos hp, hj]
      · simp only [if_neg hp]
        cases s with
        | replaceMatching => simp [hj]
        | addOnly => simp [hj]
    · simp only [mergeOne, if_neg hid]
      cases j with
      | zero =>
        simp only [List.getElem?_cons_zero] at hj ⊢
        exact hj
      | succ k =>
        simp only [List.getElem?_cons_succ] at hj ⊢
        exact ih k hj

theorem mergeOne_protected_found (s : MergeStrategy) (t : SavedAddon)
    (col : List AddonDescriptor)
    (hall : ∀ x ∈ col, x.manifest.id = t.manifest.id → x.isProtected = true)
    (hpres : ∃ x ∈ col, x.manifest.id = t.manifest.id) :
    mergeOne s t col = (col, .protectedOutcome) := by
  induction col with
  | nil => simp at hpres
  | cons a rest ih =>
    by_cases hid : a.manifest.id = t.manifest.id
    · have hp : a.isProtected = true := hall a (List.mem_cons_self a rest) hid
      simp [mergeOne, if_pos hid, hp]
    · obtain ⟨x, hxmem, hxid⟩ := hpres
      have hxrest : x ∈ rest := by
        rcases List.mem_cons.mp hxmem with h | h
        · exact absurd (h ▸ hxid) hid
        · exact h
      have := ih (fun y hy => hall y (List.mem_cons_of_mem a hy)) ⟨x, hxrest, hxid⟩
      simp [mergeOne, if_neg hid, this]

theorem mergeOne_keep_mem (s : MergeStrategy) (t : SavedAddon)
    (col : List AddonDescriptor) (x : AddonDescriptor)
    (hx : x ∈ col) (hne : x.manifest.id ≠ t.manifest.id) :
    x ∈ (mergeOne s t col).1 := by
  induction col with
  | nil => simp at hx
  | cons a rest ih =>
    by_cases hid : a.manifest.id = t.manifest.id
    · have hxrest : x ∈ rest := by
        rcases List.mem_cons.mp hx with h | h
        · exact absurd (h ▸ hne) (fun hc => hc hid)
        · exact h
      simp only [mergeOne, if_pos hid]
      by_cases hp : a.isProtected
      · simp only [if_pos hp]
        exact List.mem_cons_of_mem a hxrest
      · simp only [if_neg hp]
        cases s with
        | replaceMatching => exact List.mem_cons_of_mem _ hxrest
        | addOnly => exact List.mem_cons_of_mem a hxrest
    · simp only [mergeOne, if_neg hid]
      rcases List.mem_cons.mp hx with h | h
      · exact h ▸ List.mem_cons_self a _
      · exact List.mem_cons_of_mem a (ih h)

theorem mergeOne_addOnly_col (t : SavedAddon) (col : List AddonDescriptor)
    (h : ∃ x ∈ col, x.manifest.id = t.manifest.id) :
    (mergeOne .addOnly t col).1 = col := by
  induction col with
  | nil => simp at h
  | cons a rest ih =>
    by_cases hid : a.manifest.id = t.manifest.id
    · simp only [mergeOne, if_pos hid]
      by_cases hp : a.isProtected
      · simp [hp]
      · simp [hp]
    · obtain ⟨x, hxmem, hxid⟩ := h
      have hxrest : x ∈ rest := by
        rcases List.mem_cons.mp hxmem with h' | h'
        · exact absurd (h' ▸ hxid) hid
        · exact h'
      simp only [mergeOne, if_neg hid]
      rw [ih ⟨x, hxrest, hxid⟩]

theorem mergeOne_addOnly_presence (t : SavedAddon) (col : List AddonDescriptor) :
    ∃ y ∈ (mergeOne .addOnly t col).1, y.manifest.id = t.manifest.id := by
  by_cases h : ∃ x ∈ col, x.manifest.id = t.manifest.id
  · rw [mergeOne_addOnly_col t col h]
    exact h
  · push_neg at h
    rw [mergeOne_not_found _ _ _ h]
    exact ⟨buildDescriptor t, by simp, rfl⟩

theorem mergeOne_addOnly_mem_mono (t : SavedAddon) (col : List AddonDescriptor)
    (x : AddonDescriptor) (hx : x ∈ col) : x ∈ (mergeOne .addOnly t col).1 := by
  by_cases h : ∃ y ∈ col, y.manifest.id = t.manifest.id
  · rw [mergeOne_addOnly_col t col h]
    exact hx
  · push_neg at h
    rw [mergeOne_not_found _ _ _ h]
    exact List.mem_append_left _ hx

theorem fold_addOnly_mem_mono (ts : List SavedAddon) (col : List AddonDescriptor)
    (r : MergeResult) (x : AddonDescriptor) (hx : x ∈ col) :
    x ∈ (List.foldl (mergeStep .addOnly) (col, r) ts).1 := by
  induction ts generalizing col r with
  | nil => exact hx
  | cons t0 ts ih =>
    simp only [List.foldl_cons]
    exact ih (mergeStep .addOnly (col, r) t0).1 (mergeStep .addOnly (col, r) t0).2
      (mergeOne_addOnly_mem_mono t0 col x hx)

theorem fold_addOnly_contains (ts : List SavedAddon) (col : List AddonDescriptor)
    (r : MergeResult) (t : SavedAddon) (ht : t ∈ ts) :
    ∃ y ∈ (List.foldl (mergeStep .addOnly) (col, r) ts).1,
      y.manifest.id = t.manifest.id := by
  induction ts generalizing col r with
  | nil => simp at ht
  | cons t0 ts ih =>
    simp only [List.foldl_cons]
    rcases List.mem_cons.mp ht with rfl | hmem
    · obtain ⟨y, hy, hid⟩ := mergeOne_addOnly_presence t col
      exact ⟨y, fold_addOnly_mem_mono ts _ _ y hy, hid⟩
    · exact ih (mergeStep .addOnly (col, r) t0).1 (mergeStep .addOnly (col, r) t0).2 hmem

theorem fold_addOnly_noop (ts : List SavedAddon) (col : List AddonDescriptor)
    (r : MergeResult) (h : ∀ t ∈ ts, ∃ x ∈ col, x.manifest.id = t.manifest.id) :
    (List.foldl (mergeStep .addOnly) (col, r) ts).1 = col := by
  induction ts generalizing r with
  | nil => rfl
  | cons t0 ts ih =>
    have hc : (mergeOne .addOnly t0 col).1 = col :=
      mergeOne_addOnly_col t0 col (h t0 (List.mem_cons_self t0 ts))
    have hstep : mergeStep .addOnly (col, r) t0
        = (col, recordOutcome r t0 (mergeOne .addOnly t0 col).2) := by
      simp [mergeStep, hc]
    simp only [List.foldl_cons, hstep]
    exact ih _ (fun t ht => h t (List.mem_cons_of_mem t0 ht))

/-- Claim C4: `add-only` merging is idempotent on the collection: merging the
same template list a second time with strategy `add-only` leaves the
collection produced by the first merge unchanged, because every template id
is already present after the first merge and is then left untouched. -/
theorem claim_C4_addOnly_idempotent (C : List AddonDescriptor) (T : List SavedAddon) :
    (mergeAddons (mergeAddons C T .addOnly).1 T .addOnly).1
      = (mergeAddons C T .addOnly).1 :=
  fold_addOnly_noop T (mergeAddons C T .addOnly).1 emptyMergeResult
    (fun t ht => fold_addOnly_contains T C emptyMergeResult t ht)

theorem getElemOpt_mem {α : Type} (l : List α) (i : Nat) (a : α)
    (h : l[i]? = some a) : a ∈ l := by
  obtain ⟨hlt, rfl⟩ := List.getElem?_eq_some.mp h
  exact List.getElem_mem hlt

/-- Invariant carried through a merge fold for a protected addon `P` sitting
at index `i`: `P` is still at index `i`, every collection member sharing
`P`'s id is protected, and no `updated` record carries `P`'s id. -/
def ProtInv (P : AddonDescriptor) (i : Nat)
    (st : List AddonDescriptor × MergeResult) : Prop :=
  st.1[i]? = some P ∧
  (∀ x ∈ st.1, x.manifest.id = P.manifest.id → x.isProtected = true) ∧
  (∀ e ∈ st.2.updated, e.addonId ≠ P.manifest.id)

theorem mergeStep_protInv (s : MergeStrategy) (t : SavedAddon)
    (P : AddonDescriptor) (i : Nat) (st : List AddonDescriptor × MergeResult)
    (hInv : ProtInv P i st) :
    ProtInv P i (mergeStep s st t) ∧
      (t.manifest.id = P.manifest.id →
        (mergeStep s st t).2.«protected»
          = st.2.«protected» ++ [⟨t.manifest.id, t.manifest.name⟩]) := by
  obtain ⟨hpos, hall, hupd⟩ := hInv
  have hmemP : P ∈ st.1 := getElemOpt_mem st.1 i P hpos
  by_cases ht : t.manifest.id = P.manifest.id
  · have h1 : mergeOne s t st.1 = (st.1, .protectedOutcome) := by
      apply mergeOne_protected_found
      · intro x hx hxid
        exact hall x hx (ht ▸ hxid)
      · exact ⟨P, hmemP, ht.symm⟩
    have hstep : mergeStep s st t = (st.1, recordOutcome st.2 t .protectedOutcome) := by
      simp [mergeStep, h1]
    rw [hstep]
    refine ⟨⟨hpos, hall, ?_⟩, fun _ => rfl⟩
    intro e he
    exact hupd e he
  · have hne : P.manifest.id ≠ t.manifest.id := fun h => ht h.symm
    constructor
    · refine ⟨?_, ?_, ?_⟩
      · exact mergeOne_keep_pos s t st.1 i P hpos hne
      · intro x hx hid
        rcases mergeOne_mem s t st.1 x hx with hmem | rfl
        · exact hall x hmem hid
        · exact absurd hid ht
      · intro e he
        cases hout : (mergeOne s t st.1).2 with
        | added =>
          simp only [mergeStep, hout, recordOutcome] at he
          exact hupd e he
        | updated =>
          simp only [mergeStep, hout, recordOutcome] at he
          rcases List.mem_append.mp he with h | h
          · exact hupd e h
          · rw [List.mem_singleton.mp h]
            exact ht
        | skipped =>
          simp only [mergeStep, hout, recordOutcome] at he
          exact hupd e he
        | protectedOutcome =>
          simp only [mergeStep, hout, recordOutcome] at he
          exact hupd e he
    · intro h
      exact absurd h ht

theorem fold_protInv (s : MergeStrategy) (P : AddonDescriptor) (i : Nat)
    (ts : List SavedAddon) (st : List AddonDescriptor × MergeResult)
    (hInv : ProtInv P i st) : ProtInv P i (List.foldl (mergeStep s) st ts) := by
  induction ts generalizing st with
  | nil => exact hInv
  | cons t0 ts ih =>
    simp only [List.foldl_cons]
    exact ih _ (mergeStep_protInv s t0 P i st hInv).1

theorem fold_protected_mono (s : MergeStrategy) (ts : List SavedAddon)
    (st : List AddonDescriptor × MergeResult) (e : MergeEntry)
    (he : e ∈ st.2.«protected») :
    e ∈ (List.foldl (mergeStep s) st ts).2.«protected» := by
  induction ts generalizing st with
  | nil => exact he
  | cons t0 ts ih =>
    simp only [List.foldl_cons]
    apply ih
    cases hout : (mergeOne s t0 st.1).2 with
    | added => simpa [mergeStep, hout, recordOutcome] using he
    | updated => simpa [mergeStep, hout, recordOutcome] using he
    | skipped => simpa [mergeStep, hout, recordOutcome] using he
    | protectedOutcome =>
      simp only [mergeStep, hout, recordOutcome]
      exact List.mem_append_left _ he

/-- Claim C2: for every collection containing a protected addon `P` (where,
per the collection uniqueness invariant, every holder of `P`'s id is
protected) and every template list containing a template with `P`'s
`manifest.id`, under either strategy the merged collection still holds `P`
unchanged at its original index, the `MergeResult` records `P`'s id under
`protected`, and no `updated` record carries `P`'s id. -/
theorem claim_C2_protected_invariant (C : List AddonDescriptor)
    (T : List SavedAddon) (s : MergeStrategy) (P : AddonDescriptor) (i : Nat)
    (t : SavedAddon) (hP : C[i]? = some P) (hprot : P.isProtected = true)
    (hAll : ∀ x ∈ C, x.manifest.id = P.manifest.id → x.isProtected = true)
    (ht : t ∈ T) (hid : t.manifest.id = P.manifest.id) :
    (mergeAddons C T s).1[i]? = some P ∧
    (∃ e ∈ (mergeAddons C T s).2.«protected», e.addonId = P.manifest.id) ∧
    (∀ e ∈ (mergeAddons C T s).2.updated, e.addonId ≠ P.manifest.id) := by
  obtain ⟨l₁, l₂, rfl⟩ := List.append_of_mem ht
  have hfold : mergeAddons C (l₁ ++ t :: l₂) s
      = List.foldl (mergeStep s)
          (mergeStep s (List.foldl (mergeStep s) (C, emptyMergeResult) l₁) t) l₂ := by
    rw [mergeAddons, List.foldl_append, List.foldl_cons]
  rw [hfold]
  have hInv1 : ProtInv P i (List.foldl (mergeStep s) (C, emptyMergeResult) l₁) :=
    fold_protInv s P i l₁ (C, emptyMergeResult)
      ⟨hP, hAll, by simp [emptyMergeResult]⟩
  obtain ⟨hInv2, hprotEq⟩ :=
    mergeStep_protInv s t P i (List.foldl (mergeStep s) (C, emptyMergeResult) l₁) hInv1
  have hInv3 := fold_protInv s P i l₂ _ hInv2
  refine ⟨hInv3.1, ?_, hInv3.2.2⟩
  refine ⟨⟨t.manifest.id, t.manifest.name⟩, ?_, hid⟩
  apply fold_protected_mono
  rw [hprotEq hid]
  exact List.mem_append_right _ (List.mem_singleton.mpr rfl)

theorem mergeOne_ids (s : MergeStrategy) (t : SavedAddon) (col : List AddonDescriptor) :
    ((mergeOne s t col).1).map (fun a => a.manifest.id)
      = if (mergeOne s t col).2 = .added
          then col.map (fun a => a.manifest.id) ++ [t.manifest.id]
          else col.map (fun a => a.manifest.id) := by
  induction col with
  | nil => simp [mergeOne, buildDescriptor]
  | cons a rest ih =>
    by_cases hid : a.manifest.id = t.manifest.id
    · by_cases hp : a.isProtected
      · simp [mergeOne, hid, hp]
      · cases s with
        | replaceMatching => simp [mergeOne, hid, hp, buildDescriptor]
        | addOnly => simp [mergeOne, hid, hp]
    · simp only [mergeOne, if_neg hid, List.map_cons]
      rw [ih]
      by_cases ho : (mergeOne s t rest).2 = .added <;> simp [ho]

theorem recordOutcome_added (r : MergeResult) (t : SavedAddon) (o : MergeOutcome) :
    (recordOutcome r t o).added
      = r.added ++ (if o = .added then [⟨t.manifest.id, t.manifest.name⟩] else []) := by
  cases o <;> simp [recordOutcome]

theorem fold_ids_eq (s : MergeStrategy) (ts : List SavedAddon) :
    ∀ (col : List AddonDescriptor) (r : MergeResult),
    ∃ Δ : List MergeEntry,
      (List.foldl (mergeStep s) (col, r) ts).2.added = r.added ++ Δ ∧
      ((List.foldl (mergeStep s) (col, r) ts).1).map (fun a => a.manifest.id)
        = col.map (fun a => a.manifest.id) ++ Δ.map (fun e => e.addonId) ∧
      List.Sublist (Δ.map (fun e => e.addonId)) (ts.map (fun u => u.manifest.id)) := by
  induction ts with
  | nil =>
    intro col r
    exact ⟨[], by simp, by simp, by simp⟩
  | cons t0 ts ih =>
    intro col r
    have hms : mergeStep s (col, r) t0
        = ((mergeOne s t0 col).1, recordOutcome r t0 (mergeOne s t0 col).2) := rfl
    simp only [List.foldl_cons, hms]
    obtain ⟨Δ', h1, h2, h3⟩ := ih (mergeOne s t0 col).1 (recordOutcome r t0 (mergeOne s t0 col).2)
    by_cases ho : (mergeOne s t0 col).2 = .added
    · refine ⟨⟨t0.manifest.id, t0.manifest.name⟩ :: Δ', ?_, ?_, ?_⟩
      · rw [h1, recordOutcome_added, if_pos ho]
        simp
      · rw [h2, mergeOne_ids, if_pos ho]
        simp
      · simp only [List.map_cons]
        exact List.Sublist.cons₂ _ h3
    · refine ⟨Δ', ?_, ?_, ?_⟩
      · rw [h1, recordOutcome_added, if_neg ho]
        simp
      · rw [h2, mergeOne_ids, if_neg ho]
      · exact List.Sublist.cons _ h3

theorem mergeOne_updated_char (s : MergeStrategy) (t : SavedAddon)
    (col : List AddonDescriptor) (h : (mergeOne s t col).2 = .updated) :
    ∃ j x, col[j]? = some x ∧ x.manifest.id = t.manifest.id ∧
      (mergeOne s t col).1 = col.set j (buildDescriptor t) := by
  induction col with
  | nil => simp [mergeOne] at h
  | cons a rest ih =>
    by_cases hid : a.manifest.id = t.manifest.id
    · by_cases hp : a.isProtected
      · simp [mergeOne, hid, hp] at h
      · cases s with
        | replaceMatching =>
          refine ⟨0, a, by simp, hid, ?_⟩
          simp [mergeOne, hid, hp]
        | addOnly => simp [mergeOne, hid, hp] at h
    · simp only [mergeOne, if_neg hid] at h ⊢
      obtain ⟨j, x, hjx, hxid, hset⟩ := ih h
      exact ⟨j + 1, x, by simpa using hjx, hxid, by simp [hset]⟩

theorem mergeOne_pos_char (s : MergeStrategy) (t : SavedAddon)
    (col : List AddonDescriptor) (j : Nat) (y : AddonDescriptor)
    (hj : col[j]? = some y) :
    ∃ z, (mergeOne s t col).1[j]? = some z ∧ z.manifest.id = y.manifest.id ∧
      (z = y ∨ z = buildDescriptor t) := by
  induction col generalizing j with
  | nil => simp at hj
  | cons a rest ih =>
    by_cases hid : a.manifest.id = t.manifest.id
    · by_cases hp : a.isProtected
      · exact ⟨y, by simp [mergeOne, hid, hp, hj], rfl, Or.inl rfl⟩
      · cases s with
        | replaceMatching =>
          cases j with
          | zero =>
            simp only [List.getElem?_cons_zero, Option.some.injEq] at hj
            subst hj
            refine ⟨buildDescriptor t, ?_, ?_, Or.inr rfl⟩
            · simp [mergeOne, hid, hp]
            · simpa [buildDescriptor] using hid.symm
          | succ k =>
            simp only [List.getElem?_cons_succ] at hj
            exact ⟨y, by simp [mergeOne, hid, hp, hj], rfl, Or.inl rfl⟩
        | addOnly => exact ⟨y, by simp [mergeOne, hid, hp, hj], rfl, Or.inl rfl⟩
    · cases j with
      | zero =>
        simp only [List.getElem?_cons_zero, Option.some.injEq] at hj
        subst hj
        exact ⟨a, by simp [mergeOne, hid], rfl, Or.inl rfl⟩
      | succ k =>
        simp only [List.getElem?_cons_succ] at hj
        obtain ⟨z, hz1, hz2, hz3⟩ := ih k hj
        exact ⟨z, by simp [mergeOne, hid, hz1], hz2, hz3⟩

theorem fold_pos_char (s : MergeStrategy) (ts : List SavedAddon) :
    ∀ (col : List AddonDescriptor) (r : MergeResult) (j : Nat) (y : AddonDescriptor),
    col[j]? = some y →
    ∃ z, (List.foldl (mergeStep s) (col, r) ts).1[j]? = some z ∧
      z.manifest.id = y.manifest.id ∧ (z = y ∨ ∃ u, z = buildDescriptor u) := by
  induction ts with
  | nil =>
    intro col r j y hj
    exact ⟨y, hj, rfl, Or.inl rfl⟩
  | cons t0 ts ih =>
    intro col r j y hj
    obtain ⟨z, hz1, hz2, hz3⟩ := mergeOne_pos_char s t0 col j y hj
    have hms : mergeStep s (col, r) t0
        = ((mergeOne s t0 col).1, recordOutcome r t0 (mergeOne s t0 col).2) := rfl
    simp only [List.foldl_cons, hms]
    obtain ⟨w, hw1, hw2, hw3⟩ := ih (mergeOne s t0 col).1 _ j z hz1
    refine ⟨w, hw1, hw2.trans hz2, ?_⟩
    rcases hw3 with rfl | ⟨u, hu⟩
    · rcases hz3 with rfl | hz
      · exact Or.inl rfl
      · exact Or.inr ⟨t0, hz⟩
    · exact Or.inr ⟨u, hu⟩

/-- Claim C3: the merge preserves order.  The merged collection's id sequence
is the original id sequence followed by the ids of the `added` records, the
`added` records are a sublist of the templates in iteration order, every
original index still holds an addon with the original id (either untouched
or a template-built replacement), and whenever a single-template merge
reports `updated` the new collection is exactly the old one with the
template descriptor substituted at the matched index. -/
theorem claim_C3_order_preservation (C : List AddonDescriptor)
    (T : List SavedAddon) (s : MergeStrategy) :
    ((mergeAddons C T s).1).map (fun a => a.manifest.id)
      = C.map (fun a => a.manifest.id)
        ++ ((mergeAddons C T s).2.added).map (fun e => e.addonId) ∧
    List.Sublist (((mergeAddons C T s).2.added).map (fun e => e.addonId))
      (T.map (fun u => u.manifest.id)) ∧
    (∀ (j : Nat) (x : AddonDescriptor), C[j]? = some x →
        ∃ y, (mergeAddons C T s).1[j]? = some y ∧
        y.manifest.id = x.manifest.id ∧ (y = x ∨ ∃ u, y = buildDescriptor u)) ∧
    (∀ (col : List AddonDescriptor) (t : SavedAddon),
        (mergeOne .replaceMatching t col).2 = .updated →
        ∃ j x, col[j]? = some x ∧ x.manifest.id = t.manifest.id ∧
          (mergeOne .replaceMatching t col).1 = col.set j (buildDescriptor t)) := by
  have e : mergeAddons C T s = List.foldl (mergeStep s) (C, emptyMergeResult) T := rfl
  rw [e]
  obtain ⟨Δ, h1, h2, h3⟩ := fold_ids_eq s T C emptyMergeResult
  simp only [show emptyMergeResult.added = [] from rfl, List.nil_append] at h1
  refine ⟨?_, ?_, ?_, ?_⟩
  · rw [h2, h1]
  · rw [h1]
    exact h3
  · intro j x hj
    exact fold_pos_char s T C emptyMergeResult j x hj
  · intro col t h
    exact mergeOne_updated_char .replaceMatching t col h

/-! ## Account state synchronizer -/

/-- Modelled from the spec: `findSavedAddonByUrl` from `src/lib/addon-storage`,
whose source is not present under `src/` (only its caller in
`src/store/authStore.ts` is).  Per spec section 4.3: scan the library for any
saved addon whose `installUrl` equals the live addon's `transportUrl`, by
exact string equality. -/
def findSavedAddonByUrl (library : List SavedAddon) (url : String) : Option SavedAddon :=
  library.find? (fun sa => sa.installUrl == url)

/-- Fresh provenance entry for a live addon with no prior ledger entry
(`syncAccountState`, authStore.ts lines 704-715): auto-link against the
library by exact `installUrl` match. -/
def newInstalledAddon (library : List SavedAddon) (addon : AddonDescriptor)
    (now : Nat) : InstalledAddon :=
  match findSavedAddonByUrl library addon.transportUrl with
  | some sa =>
      { savedAddonId := some sa.id, addonId := addon.manifest.id,
        installUrl := addon.transportUrl, installedAt := now,
        installedVia := .savedAddon, appliedTags := some sa.tags }
  | none =>
      { savedAddonId := none, addonId := addon.manifest.id,
        installUrl := addon.transportUrl, installedAt := now,
        installedVia := .manual, appliedTags := none }

/-- Ledger entry produced for one live addon (`syncAccountState` loop body,
authStore.ts lines 694-716): carry prior provenance forward updating only
`installUrl`, else create fresh provenance. -/
def syncEntry (prevEntries : List InstalledAddon) (library : List SavedAddon)
    (now : Nat) (addon : AddonDescriptor) : InstalledAddon :=
  match prevEntries.find? (fun e => e.addonId == addon.manifest.id) with
  | some existing => { existing with installUrl := addon.transportUrl }
  | none => newInstalledAddon library addon now

/-- `existingState?.installedAddons` with optional chaining collapsing a
missing state to no entries. -/
def prevInstalledAddons : Option AccountAddonState → List InstalledAddon
  | some st => st.installedAddons
  | none => []

/-- `syncAccountState` (authStore.ts lines 684-731) as a pure function of the
fetched live collection: rebuild the ledger by mapping every live addon
through `syncEntry` and stamp `lastSync` with the current time. -/
def syncAccountState (accountId : String) (library : List SavedAddon)
    (existingState : Option AccountAddonState)
    (currentAddons : List AddonDescriptor) (now : Nat) : AccountAddonState :=
  { accountId := accountId,
    installedAddons :=
      currentAddons.map (syncEntry (prevInstalledAddons existingState) library now),
    lastSync := now }

theorem syncEntry_addonId (prevEntries : List InstalledAddon)
    (library : List SavedAddon) (now : Nat) (addon : AddonDescriptor) :
    (syncEntry prevEntries library now addon).addonId = addon.manifest.id := by
  unfold syncEntry
  cases h : prevEntries.find? (fun e => e.addonId == addon.manifest.id) with
  | some e =>
    have := List.find?_some h
    simpa using beq_iff_eq.mp this
  | none =>
    unfold newInstalledAddon
    cases findSavedAddonByUrl library addon.transportUrl <;> rfl

theorem syncEntry_installUrl (prevEntries : List InstalledAddon)
    (library : List SavedAddon) (now : Nat) (addon : AddonDescriptor) :
    (syncEntry prevEntries library now addon).installUrl = addon.transportUrl := by
  unfold syncEntry
  cases prevEntries.find? (fun e => e.addonId == addon.manifest.id) with
  | some e => rfl
  | none =>
    unfold newInstalledAddon
    cases findSavedAddonByUrl library addon.transportUrl <;> rfl

theorem syncEntry_of_find_some (prevEntries : List InstalledAddon)
    (library : List SavedAddon) (now : Nat) (addon : AddonDescriptor)
    (e : InstalledAddon)
    (h : prevEntries.find? (fun x => x.addonId == addon.manifest.id) = some e) :
    syncEntry prevEntries library now addon = { e with installUrl := addon.transportUrl } := by
  unfold syncEntry
  rw [h]

theorem installedAddon_installUrl_eta (e : InstalledAddon) (u : String)
    (h : e.installUrl = u) : { e with installUrl := u } = e := by
  cases e
  subst h
  rfl

theorem find?_map_of_nodup (f : AddonDescriptor → InstalledAddon)
    (hf : ∀ x, (f x).addonId = x.manifest.id)
    (current : List AddonDescriptor)
    (hnd : (current.map (fun a => a.manifest.id)).Nodup)
    (a : AddonDescriptor) (ha : a ∈ current) :
    (current.map f).find? (fun e => e.addonId == a.manifest.id) = some (f a) := by
  induction current with
  | nil => simp at ha
  | cons b rest ih =>
    simp only [List.map_cons, List.nodup_cons] at hnd
    obtain ⟨hb, hrest⟩ := hnd
    rcases List.mem_cons.mp ha with rfl | hmem
    · simp only [List.map_cons]
      apply List.find?_cons_of_pos
      simp [hf]
    · have hne : b.manifest.id ≠ a.manifest.id := by
        intro h
        apply hb
        rw [h]
        exact List.mem_map_of_mem _ hmem
      simp only [List.map_cons]
      rw [List.find?_cons_of_neg]
      · exact ih hrest hmem
      · simp [hf, hne]

/-- Claim C5: `syncAccountState` is idempotent.  Running it a second time
against the same live collection with the same library produces the same
ledger entries as the first run; with the same timestamp the whole state is
identical.  The hypothesis is the collection uniqueness invariant of the
data model (`manifest.id` unique within a collection). -/
theorem claim_C5_sync_idempotent (accountId : String) (library : List SavedAddon)
    (prev : Option AccountAddonState) (current : List AddonDescriptor)
    (t1 t2 : Nat) (hnd : (current.map (fun a => a.manifest.id)).Nodup) :
    (syncAccountState accountId library
        (some (syncAccountState accountId library prev current t1))
        current t2).installedAddons
      = (syncAccountState accountId library prev current t1).installedAddons ∧
    (t2 = t1 →
      syncAccountState accountId library
          (some (syncAccountState accountId library prev current t1)) current t2
        = syncAccountState accountId library prev current t1) := by
  have key : (syncAccountState accountId library
      (some (syncAccountState accountId library prev current t1))
      current t2).installedAddons
      = (syncAccountState accountId library prev current t1).installedAddons := by
    show current.map (syncEntry
        (current.map (syncEntry (prevInstalledAddons prev) library t1)) library t2)
      = current.map (syncEntry (prevInstalledAddons prev) library t1)
    apply List.map_congr_left
    intro a ha
    have hfind := find?_map_of_nodup
      (syncEntry (prevInstalledAddons prev) library t1)
      (fun x => syncEntry_addonId _ _ _ x) current hnd a ha
    rw [syncEntry_of_find_some _ _ _ _ _ hfind]
    exact installedAddon_installUrl_eta _ _ (syncEntry_installUrl _ _ _ _)
  refine ⟨key, ?_⟩
  intro h
  subst h
  unfold syncAccountState at key ⊢
  simp only [AccountAddonState.mk.injEq]
  exact ⟨trivial, key, trivial⟩

/-- Claim C7: provenance auto-link on sync.  For a live addon with no prior
ledger entry: when no library entry's `installUrl` matches its
`transportUrl`, the fresh entry has `savedAddonId = none` and
`installedVia = manual`; when the library scan finds a match, the fresh
entry carries that entry's id and tags and `installedVia = savedAddon`. -/
theorem claim_C7_provenance_autolink (accountId : String)
    (library : List SavedAddon) (prev : Option AccountAddonState)
    (current : List AddonDescriptor) (now : Nat) (i : Nat)
    (addon : AddonDescriptor) (hi : current[i]? = some addon)
    (hnew : (prevInstalledAddons prev).find?
        (fun e => e.addonId == addon.manifest.id) = none) :
    ((∀ sa ∈ library, sa.installUrl ≠ addon.transportUrl) →
      (syncAccountState accountId library prev current now).installedAddons[i]?
        = some { savedAddonId := none, addonId := addon.manifest.id,
                 installUrl := addon.transportUrl, installedAt := now,
                 installedVia := .manual, appliedTags := none }) ∧
    (∀ sa, findSavedAddonByUrl library addon.transportUrl = some sa →
      sa ∈ library ∧ sa.installUrl = addon.transportUrl ∧
      (syncAccountState accountId library prev current now).installedAddons[i]?
        = some { savedAddonId := some sa.id, addonId := addon.manifest.id,
                 installUrl := addon.transportUrl, installedAt := now,
                 installedVia := .savedAddon, appliedTags := some sa.tags }) := by
  have hentry : (syncAccountState accountId library prev current now).installedAddons[i]?
      = some (syncEntry (prevInstalledAddons prev) library now addon) := by
    show (current.map (syncEntry (prevInstalledAddons prev) library now))[i]?
      = some (syncEntry (prevInstalledAddons prev) library now addon)
    rw [List.getElem?_map, hi]
    rfl
  constructor
  · intro hnomatch
    have hnone : findSavedAddonByUrl library addon.transportUrl = none := by
      apply List.find?_eq_none.mpr
      intro sa hsa
      simp [hnomatch sa hsa]
    rw [hentry]
    unfold syncEntry
    rw [hnew]
    unfold newInstalledAddon
    rw [hnone]
  · intro sa hsa
    refine ⟨List.mem_of_find?_eq_some hsa, ?_, ?_⟩
    · exact beq_iff_eq.mp (by simpa using List.find?_some hsa)
    · rw [hentry]
      unfold syncEntry
      rw [hnew]
      unfold newInstalledAddon
      rw [hsa]

/-! ## Bulk orchestrator -/

/-- What happens for one account inside the bulk loop's `try` block
(authStore.ts lines 560-585 and 628-660).  The remote work before the
success counter (decrypt, fetch, merge/remove, write back) either throws
(`earlyFail`) or yields a per-account `MergeResult`; in the latter case the
trailing `syncAccountState` call, which runs after `success` was already
incremented and the detail pushed, may still throw (`applied r (some e)`)
and is caught by the same per-account `catch`. -/
inductive AccountOutcome where
  | earlyFail (e : String)
  | applied (r : MergeResult) (syncError : Option String)
  deriving DecidableEq, Repr

def AccountOutcome.isApplied : AccountOutcome → Bool
  | .applied _ _ => true
  | .earlyFail _ => false

def AccountOutcome.isFailed : AccountOutcome → Bool
  | .earlyFail _ => true
  | .applied _ (some _) => true
  | .applied _ none => false

def AccountOutcome.lateSyncFail : AccountOutcome → Bool
  | .applied _ (some _) => true
  | _ => false

def AccountOutcome.errorEntry (accountId : String) : AccountOutcome → Option (String × String)
  | .earlyFail e => some (accountId, e)
  | .applied _ (some e) => some (accountId, e)
  | .applied _ none => none

def AccountOutcome.detailEntry (accountId : String) :
    AccountOutcome → Option (String × MergeResult)
  | .applied r _ => some (accountId, r)
  | .earlyFail _ => none

/-- One iteration of the bulk loop: on an early throw, count the failure and
record the error; on success, count the success and push the detail, and if
the trailing sync then throws, additionally count a failure and record the
error (mirroring the `try`/`catch` placement in the source, where
`result.success++` and `result.details.push` precede `syncAccountState`). -/
def bulkStep (outcome : String → AccountOutcome) (st : BulkResult)
    (accountId : String) : BulkResult :=
  match outcome accountId with
  | .earlyFail e =>
      { st with failed := st.failed + 1, errors := st.errors ++ [(accountId, e)] }
  | .applied r none =>
      { st with success := st.success + 1, details := st.details ++ [(accountId, r)] }
  | .applied r (some e) =>
      { st with success := st.success + 1, details := st.details ++ [(accountId, r)],
                failed := st.failed + 1, errors := st.errors ++ [(accountId, e)] }

def emptyBulkResult : BulkResult := ⟨0, 0, [], []⟩

/-- The sequential per-account loop shared by `bulkApplySavedAddons`
(authStore.ts lines 560-585) and `bulkRemoveAddons` (lines 628-660). -/
def bulkLoop (accounts : List String) (outcome : String → AccountOutcome) : BulkResult :=
  accounts.foldl (bulkStep outcome) emptyBulkResult

/-- `savedAddonIds.map((id) => get().library[id]).filter(Boolean)`
(authStore.ts lines 545-547), over a library kept as an ordered list. -/
def resolveSavedAddons (library : List SavedAddon) (savedAddonIds : List String) :
    List SavedAddon :=
  savedAddonIds.filterMap (fun id => library.find? (fun sa => sa.id == id))

/-- The post-loop `lastUsed` stamping (authStore.ts lines 587-593):
`savedAddons.forEach((sa) => \x7b library[sa.id] = \x7b ...sa, lastUsed: now \x7d \x7d)`. -/
def stampLastUsed (library : List SavedAddon) (applied : List SavedAddon)
    (now : Nat) : List SavedAddon :=
  applied.foldl
    (fun lib sa => lib.map (fun x => if x.id = sa.id then { sa with lastUsed := some now } else x))
    library

/-- `bulkApplySavedAddons` (authStore.ts lines 542-603) as a pure function:
resolve the requested templates, throw if none is valid, run the sequential
account loop, then stamp `lastUsed` for every resolved template.  The
per-account remote work is abstracted by `outcome`. -/
def bulkApplySavedAddons (library : List SavedAddon) (savedAddonIds : List String)
    (accounts : List String) (outcome : String → AccountOutcome) (now : Nat) :
    Except String (BulkResult × List SavedAddon) :=
  let savedAddons := resolveSavedAddons library savedAddonIds
  if savedAddons.isEmpty then
    .error "No valid saved addons found"
  else
    .ok (bulkLoop accounts outcome, stampLastUsed library savedAddons now)

theorem bulkFold_fields (outcome : String → AccountOutcome) (l : List String) :
    ∀ st : BulkResult,
    (l.foldl (bulkStep outcome) st).success
        = st.success + (l.filter (fun a => (outcome a).isApplied)).length ∧
    (l.foldl (bulkStep outcome) st).failed
        = st.failed + (l.filter (fun a => (outcome a).isFailed)).length ∧
    (l.foldl (bulkStep outcome) st).errors
        = st.errors ++ l.filterMap (fun a => (outcome a).errorEntry a) ∧
    (l.foldl (bulkStep outcome) st).details
        = st.details ++ l.filterMap (fun a => (outcome a).detailEntry a) := by
  induction l with
  | nil => intro st; simp
  | cons a l ih =>
    intro st
    obtain ⟨ih1, ih2, ih3, ih4⟩ := ih (bulkStep outcome st a)
    simp only [List.foldl_cons]
    cases ho : outcome a with
    | earlyFail e =>
      refine ⟨?_, ?_, ?_, ?_⟩
      · rw [ih1]
        simp [bulkStep, ho, AccountOutcome.isApplied]
      · rw [ih2]
        simp [bulkStep, ho, AccountOutcome.isFailed, Nat.add_assoc, Nat.add_comm 1]
      · rw [ih3]
        simp [bulkStep, ho, AccountOutcome.errorEntry]
      · rw [ih4]
        simp [bulkStep, ho, AccountOutcome.detailEntry]
    | applied r syncErr =>
      cases syncErr with
      | none =>
        refine ⟨?_, ?_, ?_, ?_⟩
        · rw [ih1]
          simp [bulkStep, ho, AccountOutcome.isApplied, Nat.add_assoc, Nat.add_comm 1]
        · rw [ih2]
          simp [bulkStep, ho, AccountOutcome.isFailed]
        · rw [ih3]
          simp [bulkStep, ho, AccountOutcome.errorEntry]
        · rw [ih4]
          simp [bulkStep, ho, AccountOutcome.detailEntry]
      | some e =>
        refine ⟨?_, ?_, ?_, ?_⟩
        · rw [ih1]
          simp [bulkStep, ho, AccountOutcome.isApplied, Nat.add_assoc, Nat.add_comm 1]
        · rw [ih2]
          simp [bulkStep, ho, AccountOutcome.isFailed, Nat.add_assoc, Nat.add_comm 1]
        · rw [ih3]
          simp [bulkStep, ho, AccountOutcome.errorEntry]
        · rw [ih4]
          simp [bulkStep, ho, AccountOutcome.detailEntry]

theorem count_applied_failed (outcome : String → AccountOutcome) (l : List String) :
    (l.filter (fun a => (outcome a).isApplied)).length
      + (l.filter (fun a => (outcome a).isFailed)).length
      = l.length + (l.filter (fun a => (outcome a).lateSyncFail)).length := by
  induction l with
  | nil => rfl
  | cons a l ih =>
    cases ho : outcome a with
    | earlyFail e =>
      have e1 : (outcome a).isApplied = false := by rw [ho]; rfl
      have e2 : (outcome a).isFailed = true := by rw [ho]; rfl
      have e3 : (outcome a).lateSyncFail = false := by rw [ho]; rfl
      simp only [List.filter_cons, e1, e2, e3]
      simp only [Bool.false_eq_true, if_false, if_true, List.length_cons]
      omega
    | applied r syncErr =>
      cases syncErr with
      | none =>
        have e1 : (outcome a).isApplied = true := by rw [ho]; rfl
        have e2 : (outcome a).isFailed = false := by rw [ho]; rfl
        have e3 : (outcome a).lateSyncFail = false := by rw [ho]; rfl
        simp only [List.filter_cons, e1, e2, e3]
        simp only [Bool.false_eq_true, if_false, if_true, List.length_cons]
        omega
      | some e =>
        have e1 : (outcome a).isApplied = true := by rw [ho]; rfl
        have e2 : (outcome a).isFailed = true := by rw [ho]; rfl
        have e3 : (outcome a).lateSyncFail = true := by rw [ho]; rfl
        simp only [List.filter_cons, e1, e2, e3]
        simp only [Bool.false_eq_true, if_false, if_true, List.length_cons]
        omega

/-- Claim C1 (amended): the bulk loop processes every account of the list —
each account contributes its own error or detail entry regardless of what
happened to earlier accounts — and `success + failed` equals the number of
accounts plus the number of accounts whose trailing `syncAccountState` threw
after the account had already been counted as a success; in particular the
spec's equality `success + failed = len(accounts)` holds exactly when no
account fails in that late sync step. -/
theorem claim_C1_bulk_isolation (accounts : List String)
    (outcome : String → AccountOutcome) :
    (bulkLoop accounts outcome).errors
        = accounts.filterMap (fun a => (outcome a).errorEntry a) ∧
    (bulkLoop accounts outcome).details
        = accounts.filterMap (fun a => (outcome a).detailEntry a) ∧
    (bulkLoop accounts outcome).success + (bulkLoop accounts outcome).failed
        = accounts.length
          + (accounts.filter (fun a => (outcome a).lateSyncFail)).length ∧
    ((∀ a ∈ accounts, (outcome a).lateSyncFail = false) →
      (bulkLoop accounts outcome).success + (bulkLoop accounts outcome).failed
        = accounts.length) := by
  obtain ⟨h1, h2, h3, h4⟩ := bulkFold_fields outcome accounts emptyBulkResult
  have hsum := count_applied_failed outcome accounts
  have he1 : emptyBulkResult.success = 0 := rfl
  have he2 : emptyBulkResult.failed = 0 := rfl
  have he3 : emptyBulkResult.errors = [] := rfl
  have he4 : emptyBulkResult.details = [] := rfl
  rw [bulkLoop] at *
  refine ⟨?_, ?_, ?_, ?_⟩
  · rw [h3, he3, List.nil_append]
  · rw [h4, he4, List.nil_append]
  · rw [h1, h2, he1, he2, Nat.zero_add, Nat.zero_add, hsum]
  · intro hall
    rw [h1, h2, he1, he2, Nat.zero_add, Nat.zero_add, hsum]
    have : accounts.filter (fun a => (outcome a).lateSyncFail) = [] := by
      apply List.filter_eq_nil_iff.mpr
      intro a ha
      simp [hall a ha]
    rw [this]
    rfl

def syncFailMerge : MergeResult := ⟨[], [], [], []⟩

def sampleSaved : SavedAddon :=
  ⟨"saved-1", "AddonB", "https://b.example/manifest.json",
    ⟨"idB", "AddonB", "1.0.0"⟩, [], none⟩

/-- Every account succeeds in its write, then its trailing sync throws. -/
def syncFailOutcome : String → AccountOutcome :=
  fun _ => .applied syncFailMerge (some "Failed to sync account state")

/-- Counterexample to claim C1 as stated: one account whose collection write
succeeds but whose trailing `syncAccountState` throws is counted in both
`success` and `failed`, so `success + failed = 2` for a single-account bulk
apply, violating `success + failed = len(accounts)`. -/
theorem claim_C1_counterexample :
    (bulkApplySavedAddons [sampleSaved] ["saved-1"] ["acct-1"] syncFailOutcome 5).map
        (fun p => p.1.success + p.1.failed) = .ok 2 ∧
    ¬ (2 = (["acct-1"] : List String).length) := by
  constructor
  · rfl
  · decide

def mixedOutcome : String → AccountOutcome :=
  fun a => if a = "acct-1" then .earlyFail "Network error"
           else .applied syncFailMerge none

theorem claim_C1_witness :
    (bulkLoop ["acct-1", "acct-2"] mixedOutcome).success
        + (bulkLoop ["acct-1", "acct-2"] mixedOutcome).failed
      = (["acct-1", "acct-2"] : List String).length :=
  (claim_C1_bulk_isolation ["acct-1", "acct-2"] mixedOutcome).2.2.2 (by decide)

theorem stamp_keeps_lastUsed (applied : List SavedAddon) (now : Nat) :
    ∀ (lib : List SavedAddon) (j : Nat) (v : SavedAddon),
    lib[j]? = some v → v.lastUsed = some now →
    ∃ w, (stampLastUsed lib applied now)[j]? = some w ∧ w.lastUsed = some now := by
  induction applied with
  | nil =>
    intro lib j v hj hv
    exact ⟨v, hj, hv⟩
  | cons sa rest ih =>
    intro lib j v hj hv
    have hstep : stampLastUsed lib (sa :: rest) now
        = stampLastUsed
            (lib.map (fun x => if x.id = sa.id then { sa with lastUsed := some now } else x))
            rest now := rfl
    rw [hstep]
    refine ih _ j (if v.id = sa.id then { sa with lastUsed := some now } else v) ?_ ?_
    · rw [List.getElem?_map, hj]
      rfl
    · by_cases hc : v.id = sa.id
      · simp [hc]
      · simp [hc, hv]

theorem stamp_untouched (applied : List SavedAddon) (now : Nat) :
    ∀ (lib : List SavedAddon) (j : Nat) (x : SavedAddon),
    lib[j]? = some x → (∀ sa ∈ applied, sa.id ≠ x.id) →
    (stampLastUsed lib applied now)[j]? = some x := by
  induction applied with
  | nil =>
    intro lib j x hj _
    exact hj
  | cons sa rest ih =>
    intro lib j x hj hne
    have hstep : stampLastUsed lib (sa :: rest) now
        = stampLastUsed
            (lib.map (fun y => if y.id = sa.id then { sa with lastUsed := some now } else y))
            rest now := rfl
    rw [hstep]
    apply ih
    · rw [List.getElem?_map, hj]
      have hx : x.id ≠ sa.id := fun h => hne sa (List.mem_cons_self sa rest) h.symm
      simp [hx]
    · intro sa' h
      exact hne sa' (List.mem_cons_of_mem sa h)

theorem stamp_stamped (applied : List SavedAddon) (now : Nat) :
    ∀ (lib : List SavedAddon) (j : Nat) (x sa : SavedAddon),
    sa ∈ applied → lib[j]? = some x → x.id = sa.id →
    ∃ w, (stampLastUsed lib applied now)[j]? = some w ∧ w.lastUsed = some now := by
  induction applied with
  | nil =>
    intro lib j x sa hmem
    simp at hmem
  | cons sa0 rest ih =>
    intro lib j x sa hmem hj hid
    have hstep : stampLastUsed lib (sa0 :: rest) now
        = stampLastUsed
            (lib.map (fun y => if y.id = sa0.id then { sa0 with lastUsed := some now } else y))
            rest now := rfl
    rw [hstep]
    by_cases hc : x.id = sa0.id
    · refine stamp_keeps_lastUsed rest now _ j { sa0 with lastUsed := some now } ?_ rfl
      rw [List.getElem?_map, hj]
      simp [hc]
    · rcases List.mem_cons.mp hmem with rfl | hmem'
      · exact absurd hid hc
      · refine ih _ j x sa hmem' ?_ hid
        rw [List.getElem?_map, hj]
        simp [hc]

/-- Claim C6 (amended): after a bulk apply, `lastUsed = now` is stamped in
the library exactly for the resolved templates (every requested
`savedAddonId` found in the library), independently of the per-account
outcomes — in particular even when zero accounts were successfully applied —
and library entries whose id is not among the resolved templates are left
untouched at their positions. -/
theorem claim_C6_lastUsed_stamping (library : List SavedAddon)
    (savedAddonIds : List String) (accounts : List String)
    (outcome outcome' : String → AccountOutcome) (now : Nat)
    (hne : resolveSavedAddons library savedAddonIds ≠ []) :
    bulkApplySavedAddons library savedAddonIds accounts outcome now
        = .ok (bulkLoop accounts outcome,
               stampLastUsed library (resolveSavedAddons library savedAddonIds) now) ∧
    (bulkApplySavedAddons library savedAddonIds accounts outcome now).map (fun p => p.2)
        = (bulkApplySavedAddons library savedAddonIds accounts outcome' now).map (fun p => p.2) ∧
    (∀ (j : Nat) (x : SavedAddon), library[j]? = some x →
      (∀ sa ∈ resolveSavedAddons library savedAddonIds, sa.id ≠ x.id) →
      (stampLastUsed library (resolveSavedAddons library savedAddonIds) now)[j]? = some x) ∧
    (∀ (j : Nat) (x sa : SavedAddon), sa ∈ resolveSavedAddons library savedAddonIds →
      library[j]? = some x → x.id = sa.id →
      ∃ w, (stampLastUsed library (resolveSavedAddons library savedAddonIds) now)[j]?
          = some w ∧ w.lastUsed = some now) := by
  have hE : (resolveSavedAddons library savedAddonIds).isEmpty = false := by
    cases h : resolveSavedAddons library savedAddonIds with
    | nil => exact absurd h hne
    | cons a l => rfl
  refine ⟨?_, ?_, ?_, ?_⟩
  · simp [bulkApplySavedAddons, hE]
  · simp [bulkApplySavedAddons, hE, Except.map]
  · intro j x hj hsa
    exact stamp_untouched _ now library j x hj hsa
  · intro j x sa hmem hj hid
    exact stamp_stamped _ now library j x sa hmem hj hid

def lateStampSaved : SavedAddon :=
  ⟨"saved-6", "AddonC", "https://c.example/manifest.json",
    ⟨"idC", "AddonC", "2.0"⟩, [], none⟩

/-- Every account fails before anything is applied. -/
def allFailOutcome : String → AccountOutcome :=
  fun _ => .earlyFail "Failed to decrypt"

/-- Counterexample to claim C6 as stated: with a single account that fails
before any template is applied, `success = 0` and `details = []` (no
template was applied to any account), yet the resolved template's library
entry still gets `lastUsed` stamped — contradicting "only for templates
actually applied". -/
theorem claim_C6_counterexample :
    (bulkApplySavedAddons [lateStampSaved] ["saved-6"] ["acct-6"] allFailOutcome 9).map
        (fun p => (p.1.success, p.1.details, p.2.map (fun sa => sa.lastUsed)))
      = .ok (0, [], [some 9]) := by
  rfl

theorem claim_C6_witness :
    (stampLastUsed [lateStampSaved]
        (resolveSavedAddons [lateStampSaved] ["saved-6"]) 9)[0]?
      = some { lateStampSaved with lastUsed := some 9 } := by
  have h := (claim_C6_lastUsed_stamping [lateStampSaved] ["saved-6"] ["acct-6"]
    allFailOutcome allFailOutcome 9 (by decide)).2.2.2
  obtain ⟨w, hw, hlu⟩ := h 0 lateStampSaved lateStampSaved (by decide) (by decide) rfl
  rw [hw]
  have : w = { lateStampSaved with lastUsed := some 9 } := by
    have : (stampLastUsed [lateStampSaved]
        (resolveSavedAddons [lateStampSaved] ["saved-6"]) 9)[0]?
        = some { lateStampSaved with lastUsed := some 9 } := by rfl
    rw [this] at hw
    exact (Option.some.injEq _ _ ▸ hw).symm
  rw [this]

/-! ## Update / health poller -/

/-- `AddonUpdateInfo` (src/unnamed/part_001 lines 130-138). -/
structure AddonUpdateInfo where
  addonId : String
  name : String
  transportUrl : String
  installedVersion : String
  latestVersion : String
  hasUpdate : Bool
  isOnline : Bool
  deriving DecidableEq, Repr

/-- `checkAddonUpdates` (src/unnamed/part_001 lines 145-187).  The manifest
fetch is abstracted by `fetch`: `none` models a thrown fetch, which the
per-addon `try`/`catch` swallows so the addon is omitted from the results;
`health` models `checkAddonHealth`, which never throws.  Protected and
official addons are filtered out before the loop, and
`hasUpdate = (latestVersion !== installedVersion)` by exact string
inequality. -/
def checkAddonUpdates (addons : List AddonDescriptor)
    (fetch : String → Option AddonDescriptor) (health : String → Bool) :
    List AddonUpdateInfo :=
  let checkableAddons := addons.filter (fun a => !a.isProtected && !a.isOfficial)
  checkableAddons.filterMap (fun addon =>
    match fetch addon.transportUrl with
    | none => none
    | some latestManifest =>
        some { addonId := addon.manifest.id, name := addon.manifest.name,
               transportUrl := addon.transportUrl,
               installedVersion := addon.manifest.version,
               latestVersion := latestManifest.manifest.version,
               hasUpdate := latestManifest.manifest.version != addon.manifest.version,
               isOnline := health addon.transportUrl })

/-- Claim C8: `checkAddonUpdates` ignores protected and official addons —
dropping them from the input changes nothing — and every returned entry
stems from a non-protected, non-official input addon with
`hasUpdate = true` exactly when the fetched latest version string differs
from the installed version string. -/
theorem claim_C8_update_check (addons : List AddonDescriptor)
    (fetch : String → Option AddonDescriptor) (health : String → Bool) :
    checkAddonUpdates addons fetch health
      = checkAddonUpdates
          (addons.filter (fun a => !a.isProtected && !a.isOfficial)) fetch health ∧
    (∀ u ∈ checkAddonUpdates addons fetch health,
      ∃ a ∈ addons, a.isProtected = false ∧ a.isOfficial = false ∧
        u.addonId = a.manifest.id ∧ u.installedVersion = a.manifest.version ∧
        (∃ latest, fetch a.transportUrl = some latest ∧
          u.latestVersion = latest.manifest.version) ∧
        (u.hasUpdate = true ↔ u.latestVersion ≠ u.installedVersion)) := by
  constructor
  · show (addons.filter _).filterMap _ = ((addons.filter _).filter _).filterMap _
    rw [List.filter_filter]
    simp only [Bool.and_self]
  · intro u hu
    obtain ⟨a, ha, hfa⟩ := List.mem_filterMap.mp hu
    obtain ⟨hamem, hpred⟩ := List.mem_filter.mp ha
    have hp : a.isProtected = false ∧ a.isOfficial = false := by
      have := hpred
      simp only [Bool.and_eq_true, Bool.not_eq_true'] at this
      exact this
    cases hf : fetch a.transportUrl with
    | none =>
      rw [hf] at hfa
      cases hfa
    | some latest =>
      rw [hf] at hfa
      have hu' := Option.some.inj hfa
      refine ⟨a, hamem, hp.1, hp.2, ?_, ?_, ⟨latest, hf, ?_⟩, ?_⟩
      · rw [← hu']
      · rw [← hu']
      · rw [← hu']
      · rw [← hu']
        simp only [bne_iff_ne]

def updA : AddonDescriptor :=
  ⟨"https://u.example/manifest.json", ⟨"idU", "AddonU", "1.0"⟩, none⟩

def updProt : AddonDescriptor :=
  ⟨"https://p.example/manifest.json", ⟨"idP", "AddonP", "1.0"⟩, some ⟨false, true⟩⟩

def updFetch : String → Option AddonDescriptor :=
  fun url =>
    if url = "https://u.example/manifest.json" then
      some ⟨"https://u.example/manifest.json", ⟨"idU", "AddonU", "1.1"⟩, none⟩
    else none

def updHealth : String → Bool := fun _ => true

def sampleUpdateInfo : AddonUpdateInfo :=
  ⟨"idU", "AddonU", "https://u.example/manifest.json", "1.0", "1.1", true, true⟩

theorem claim_C8_witness :
    (checkAddonUpdates [updProt, updA] updFetch updHealth
      = checkAddonUpdates
          ([updProt, updA].filter (fun a => !a.isProtected && !a.isOfficial))
          updFetch updHealth) ∧
    (∃ a ∈ [updProt, updA], a.isProtected = false ∧ a.isOfficial = false ∧
      sampleUpdateInfo.addonId = a.manifest.id ∧
      sampleUpdateInfo.installedVersion = a.manifest.version ∧
      (∃ latest, updFetch a.transportUrl = some latest ∧
        sampleUpdateInfo.latestVersion = latest.manifest.version) ∧
      (sampleUpdateInfo.hasUpdate = true ↔
        sampleUpdateInfo.latestVersion ≠ sampleUpdateInfo.installedVersion)) :=
  ⟨(claim_C8_update_check [updProt, updA] updFetch updHealth).1,
   (claim_C8_update_check [updProt, updA] updFetch updHealth).2
     sampleUpdateInfo (by decide)⟩

/-! ## Remote account API and reinstall workflow -/

/-- The remote account as the api layer sees it: the current collection plus
the log of every collection write performed (`setAddonCollection` calls). -/
structure Remote where
  collection : List AddonDescriptor
  writes : List (List AddonDescriptor)
  deriving DecidableEq, Repr

/-- `getAddons` (src/unnamed/part_001 lines 5-7): read the collection. -/
def getAddons (r : Remote) : List AddonDescriptor :=
  r.collection

/-- `updateAddons` (src/unnamed/part_001 lines 9-11): write the collection. -/
def updateAddons (r : Remote) (addons : List AddonDescriptor) : Remote :=
  { collection := addons, writes := r.writes ++ [addons] }

/-- `removeAddon` (src/unnamed/part_001 lines 42-53): filter out every
descriptor whose `manifest.id` equals the requested id — with no protection
check — and write the filtered collection back. -/
def removeAddon (r : Remote) (addonId : String) : List AddonDescriptor × Remote :=
  let currentAddons := getAddons r
  let updatedAddons := currentAddons.filter (fun addon => addon.manifest.id != addonId)
  (updatedAddons, updateAddons r updatedAddons)

/-- `installAddon` (src/unnamed/part_001 lines 13-40): fetch the manifest
(`fetch url = .error e` models a thrown fetch), replace an already-installed
addon with the same `manifest.id` in place or append, and write back. -/
def installAddon (fetch : String → Except String AddonDescriptor) (r : Remote)
    (addonUrl : String) : Except String (List AddonDescriptor × Remote) := do
  let newAddon ← fetch addonUrl
  let currentAddons := getAddons r
  let updatedAddons :=
    match currentAddons.findIdx? (fun addon => addon.manifest.id == newAddon.manifest.id) with
    | some existingIndex => currentAddons.set existingIndex newAddon
    | none => currentAddons ++ [newAddon]
  .ok (updatedAddons, updateAddons r updatedAddons)

/-- Result record of `reinstallAddon`; the two version fields are absent
(`none`) on the early no-op returns. -/
structure ReinstallResult where
  addons : List AddonDescriptor
  updatedAddon : Option AddonDescriptor
  previousVersion : Option String
  newVersion : Option String
  deriving DecidableEq, Repr

/-- `reinstallAddon` (src/unnamed/part_001 lines 63-125): read the
collection; if the target id is absent or the located addon is protected,
return the current collection with `updatedAddon = null` as a no-op;
otherwise remove, re-install by the original transport URL, and if the
original index was not already last, reorder back to the original index,
write, and re-read as ground truth. -/
def reinstallAddon (fetch : String → Except String AddonDescriptor) (r : Remote)
    (addonId : String) : Except String (ReinstallResult × Remote) := do
  let currentAddons := getAddons r
  match currentAddons.find? (fun addon => addon.manifest.id == addonId) with
  | none =>
      .ok ({ addons := currentAddons, updatedAddon := none,
             previousVersion := none, newVersion := none }, r)
  | some existingAddon =>
    if existingAddon.isProtected then
      .ok ({ addons := currentAddons, updatedAddon := none,
             previousVersion := none, newVersion := none }, r)
    else
      let previousVersion := existingAddon.manifest.version
      let transportUrl := existingAddon.transportUrl
      let addonIndex :=
        (currentAddons.findIdx? (fun addon => addon.manifest.id == addonId)).getD 0
      let r1 := (removeAddon r addonId).2
      let (addonsAfterInstall, r2) ← installAddon fetch r1 transportUrl
      match addonsAfterInstall.find? (fun addon => addon.manifest.id == addonId) with
      | some reinstalledAddon =>
        if addonIndex + 1 < addonsAfterInstall.length then
          let addonsWithoutReinstalled :=
            addonsAfterInstall.filter (fun addon => addon.manifest.id != addonId)
          let reorderedAddons := addonsWithoutReinstalled.insertIdx addonIndex reinstalledAddon
          let r3 := updateAddons r2 reorderedAddons
          let finalAddons := getAddons r3
          let finalAddon := finalAddons.find? (fun addon => addon.manifest.id == addonId)
          .ok ({ addons := finalAddons, updatedAddon := finalAddon,
                 previousVersion := some previousVersion,
                 newVersion := finalAddon.map (fun a => a.manifest.version) }, r3)
        else
          .ok ({ addons := addonsAfterInstall, updatedAddon := some reinstalledAddon,
                 previousVersion := some previousVersion,
                 newVersion := some reinstalledAddon.manifest.version }, r2)
      | none =>
        .ok ({ addons := addonsAfterInstall, updatedAddon := none,
               previousVersion := some previousVersion, newVersion := none }, r2)

/-- Claim C9: when the target id is absent from the collection, or the
located addon is protected, `reinstallAddon` is a no-op: the remote state is
returned untouched (no remove, install or collection write happens) and the
result is the current collection with `updatedAddon = none`. -/
theorem claim_C9_reinstall_noop (fetch : String → Except String AddonDescriptor)
    (r : Remote) (addonId : String)
    (h : ∀ a, r.collection.find? (fun addon => addon.manifest.id == addonId) = some a →
      a.isProtected = true) :
    reinstallAddon fetch r addonId
      = .ok ({ addons := r.collection, updatedAddon := none,
               previousVersion := none, newVersion := none }, r) := by
  unfold reinstallAddon getAddons
  cases hf : r.collection.find? (fun addon => addon.manifest.id == addonId) with
  | none => simp [hf]
  | some a => simp [hf, h a hf]

theorem claim_C9_witness :
    reinstallAddon (fun _ => .error "NotFound")
        { collection := [updProt], writes := [] } "idP"
      = .ok ({ addons := [updProt], updatedAddon := none,
               previousVersion := none, newVersion := none },
             { collection := [updProt], writes := [] }) :=
  claim_C9_reinstall_noop (fun _ => .error "NotFound")
    { collection := [updProt], writes := [] } "idP" (by decide)

/-! ## Removal engine -/

/-- Modelled from the spec: `removeAddons` (the Removal Engine) from
`src/lib/addon-merger`, whose source is not present under `src/`.  Per spec
section 4.2: partition the requested ids into protected (some descriptor
with that id has `flags.protected === true`) and removable, filter the
collection to drop removable matches, and return the protected ids
separately; protected matches are left in place. -/
def removeAddons (current : List AddonDescriptor) (addonIds : List String) :
    List AddonDescriptor × List String :=
  let isProtectedId := fun id =>
    current.any (fun a => a.manifest.id == id && a.isProtected)
  let protectedAddons := addonIds.filter isProtectedId
  let removableIds := addonIds.filter (fun id => !isProtectedId id)
  (current.filter (fun a => !removableIds.contains a.manifest.id), protectedAddons)

/-- Claim C10: the api-level single-addon removal writes back exactly the
input collection filtered by `manifest.id ≠ addonId`, with no protection
check — a protected descriptor whose id matches is removed too — unlike the
bulk Removal Engine, which keeps a protected match in the collection. -/
theorem claim_C10_remove_no_protection (r : Remote) (addonId : String) :
    (removeAddon r addonId).1
        = r.collection.filter (fun a => a.manifest.id != addonId) ∧
    (removeAddon r addonId).2.writes
        = r.writes ++ [r.collection.filter (fun a => a.manifest.id != addonId)] ∧
    (removeAddon r addonId).2.collection = (removeAddon r addonId).1 ∧
    (∀ a ∈ r.collection, a.manifest.id = addonId → a ∉ (removeAddon r addonId).1) ∧
    (∀ a ∈ r.collection, a.isProtected = true → a.manifest.id = addonId →
      a ∈ (removeAddons r.collection [addonId]).1) := by
  refine ⟨rfl, rfl, rfl, ?_, ?_⟩
  · intro a hmem hid hin
    have := (List.mem_filter.mp hin).2
    simp [hid] at this
  · intro a hmem hprot hid
    apply List.mem_filter.mpr
    refine ⟨hmem, ?_⟩
    have hany : r.collection.any (fun x => x.manifest.id == addonId && x.isProtected) = true := by
      apply List.any_eq_true.mpr
      exact ⟨a, hmem, by simp [hid, hprot]⟩
    simp [List.contains, hany]

/-! ## Witnesses at concrete inputs -/

def protAddon : AddonDescriptor :=
  ⟨"https://prot.example/manifest.json", ⟨"idProt", "Cinemeta", "1.0"⟩,
    some ⟨true, true⟩⟩

def templateProt : SavedAddon :=
  ⟨"saved-p", "CinemetaMod", "https://prot2.example/manifest.json",
    ⟨"idProt", "CinemetaMod", "2.0"⟩, [], none⟩

theorem claim_C2_witness :
    (mergeAddons [protAddon] [templateProt] .replaceMatching).1[0]? = some protAddon ∧
    (∃ e ∈ (mergeAddons [protAddon] [templateProt] .replaceMatching).2.«protected»,
      e.addonId = protAddon.manifest.id) ∧
    (∀ e ∈ (mergeAddons [protAddon] [templateProt] .replaceMatching).2.updated,
      e.addonId ≠ protAddon.manifest.id) :=
  claim_C2_protected_invariant [protAddon] [templateProt] .replaceMatching protAddon 0
    templateProt (by decide) (by decide) (by decide) (by decide) (by decide)

def oldB : AddonDescriptor :=
  ⟨"https://old-b.example/manifest.json", ⟨"idB", "AddonB", "0.9"⟩, none⟩

theorem claim_C3_witness :
    (((mergeAddons [updA] [templateProt] .replaceMatching).1).map (fun a => a.manifest.id)
      = [updA].map (fun a => a.manifest.id)
        ++ ((mergeAddons [updA] [templateProt] .replaceMatching).2.added).map
            (fun e => e.addonId)) ∧
    (∃ j x, ([oldB] : List AddonDescriptor)[j]? = some x ∧
      x.manifest.id = sampleSaved.manifest.id ∧
      (mergeOne .replaceMatching sampleSaved [oldB]).1
        = [oldB].set j (buildDescriptor sampleSaved)) :=
  ⟨(claim_C3_order_preservation [updA] [templateProt] .replaceMatching).1,
   (claim_C3_order_preservation [updA] [templateProt] .replaceMatching).2.2.2
     [oldB] sampleSaved (by decide)⟩

theorem claim_C5_witness :
    (syncAccountState "acct-1" []
        (some (syncAccountState "acct-1" [] none [updA] 3)) [updA] 4).installedAddons
      = (syncAccountState "acct-1" [] none [updA] 3).installedAddons :=
  (claim_C5_sync_idempotent "acct-1" [] none [updA] 3 4 (by decide)).1

def liveB : AddonDescriptor :=
  ⟨"https://b.example/manifest.json", ⟨"idB", "AddonB", "1.0.0"⟩, none⟩

theorem claim_C7_witness :
    (syncAccountState "acct-1" [sampleSaved] none [liveB] 7).installedAddons[0]?
      = some { savedAddonId := some sampleSaved.id, addonId := liveB.manifest.id,
               installUrl := liveB.transportUrl, installedAt := 7,
               installedVia := .savedAddon, appliedTags := some sampleSaved.tags } :=
  ((claim_C7_provenance_autolink "acct-1" [sampleSaved] none [liveB] 7 0 liveB
      (by decide) (by decide)).2 sampleSaved (by decide)).2.2

theorem claim_C10_witness :
    updProt ∈ (removeAddons [updProt] ["idP"]).1 ∧
    updProt ∉ (removeAddon { collection := [updProt], writes := [] } "idP").1 := by
  have h := claim_C10_remove_no_protection { collection := [updProt], writes := [] } "idP"
  exact ⟨h.2.2.2.2 updProt (by decide) (by decide) (by decide),
         h.2.2.2.1 updProt (by decide) (by decide)⟩

end Stremio
